import Mathlib

/-!
Verification of `convert.py` (batch hard-subbing transcoder).

The script is embedded shallowly:
* Python's dynamically typed scalars that flow into `==` comparisons
  between strings and integers are modelled by `PyVal` (Python's `==`
  between an `int` and a `str` is `False`).
* The pure helpers `get_audio_flags`, `get_filter_flags`, `get_key`,
  and `os.path.splitext` are Lean functions.
* `main` is modelled as a trace-producing interpreter over an
  environment that supplies the results of the external collaborators
  (probe subprocess, interactive prompt, encoder subprocess,
  directory creation).
-/

set_option maxHeartbeats 1000000

/-- A dynamically typed Python scalar as it flows through the script:
either a string or an integer.  Equality is Python `==`: two values of
different runtime type are never equal. -/
inductive PyVal where
  | str (s : String)
  | int (n : Int)
deriving DecidableEq, Repr

/-- Model of `get_audio_flags(codec, channels, index)` from `convert.py`
(lines 18–28).  Note the source compares `channels == "2"` against the
*string* `"2"`. -/
def get_audio_flags (codec : PyVal) (channels : PyVal) (index : Int) : List String :=
  if codec = PyVal.str "aac" ∧ channels = PyVal.str "2" then
    ["-c:a", "copy", "-map", "0:a:" ++ toString index]
  else if codec ≠ PyVal.str "none" then
    ["-c:a", "aac", "-b:a", "192k", "-ac", "2", "-map", "0:a:" ++ toString index]
  else
    []

/-- The `subfilter` local variable of `get_filter_flags` (lines 33–38). -/
def sub_filter (codec : String) (index : Int) (subfile : String) : String :=
  if codec = "dvd_subtitle" ∨ codec = "hdmv_pgs_subtitle" then
    "[0:v][0:s:" ++ toString index ++ "]overlay[burned];"
  else if codec ≠ "none" then
    "[0:v]subtitles=\x27" ++ subfile ++ "\x27:si=" ++ toString index ++ "[burned];"
  else
    "[0:v]null[burned];"

/-- The trailing scale stage appended to every filter graph
(`"{}[burned]scale=-16:min(720\\,ih)[v]"`, line 39; the Python literal
`\\` is a single backslash). -/
def scale_stage : String := "[burned]scale=-16:min(720\\,ih)[v]"

/-- Model of `get_filter_flags(codec, index, subfile)` from `convert.py`
(lines 30–40). -/
def get_filter_flags (codec : String) (index : Int) (subfile : String) : List String :=
  ["-filter_complex", sub_filter codec index subfile ++ scale_stage, "-map", "[v]"]

/-- Index of the last occurrence of `c` in the list, `-1` when absent:
Python's `str.rfind`, as used by `os.path.splitext`. -/
def rfindIdx (c : Char) : List Char → Int
  | [] => -1
  | x :: xs =>
    if 0 ≤ rfindIdx c xs then rfindIdx c xs + 1
    else if x = c then 0 else -1

/-- The root component of `os.path.splitext` (posixpath): split at the
last `.` that lies after the last `/` and is preceded (within the final
path component) by at least one non-dot character; otherwise the whole
string is the root. -/
def splitext0L (p : List Char) : List Char :=
  let si := rfindIdx '/' p
  let di := rfindIdx '.' p
  if si < di ∧
      (((p.drop (si + 1).toNat).take (di - (si + 1)).toNat).any fun ch => ch != '.') = true then
    p.take di.toNat
  else p

/-- Model of `os.path.splitext(file)[0]` on a string. -/
def splitext0 (s : String) : String := String.mk (splitext0L s.toList)

/-- The output path computed at line 162:
`"hardsubbed/{}.mp4".format(os.path.splitext(file)[0])`. -/
def out_path (file : String) : String := "hardsubbed/" ++ splitext0 file ++ ".mp4"

theorem rfindIdx_neg_of_not_mem {c : Char} {l : List Char} (h : c ∉ l) :
    rfindIdx c l = -1 := by
  induction l with
  | nil => rfl
  | cons x xs ih =>
    have hx : x ≠ c := fun he => h (he ▸ List.mem_cons_self x xs)
    have hxs : c ∉ xs := fun hm => h (List.mem_cons_of_mem x hm)
    simp [rfindIdx, ih hxs, hx]

theorem rfindIdx_ge_neg_one (c : Char) (l : List Char) : -1 ≤ rfindIdx c l := by
  induction l with
  | nil => simp [rfindIdx]
  | cons x xs ih =>
    simp only [rfindIdx]
    split
    · omega
    · split <;> omega

theorem rfindIdx_append (c : Char) (xs ys : List Char) :
    rfindIdx c (xs ++ ys) =
      if 0 ≤ rfindIdx c ys then (xs.length : Int) + rfindIdx c ys
      else rfindIdx c xs := by
  induction xs with
  | nil =>
    simp only [List.nil_append, List.length_nil, Nat.cast_zero, zero_add, rfindIdx]
    split
    · rfl
    · have := rfindIdx_ge_neg_one c ys
      omega
  | cons x xs ih =>
    simp only [List.cons_append, rfindIdx, List.append_eq, ih]
    by_cases hy : 0 ≤ rfindIdx c ys
    · have h1 : (0 : Int) ≤ (xs.length : Int) + rfindIdx c ys := by
        have : (0 : Int) ≤ (xs.length : Int) := Int.ofNat_nonneg _
        omega
      simp only [if_pos hy, if_pos h1, List.length_cons]
      push_cast
      omega
    · simp only [if_neg hy]

theorem splitext0L_stem_ext (c : Char) (cs e : List Char)
    (hc : c ≠ '.') (hs : '/' ∉ c :: cs) (he : '/' ∉ e)
    (hd : rfindIdx '.' e = 0) :
    splitext0L ((c :: cs) ++ e) = c :: cs := by
  have hsi : rfindIdx '/' ((c :: cs) ++ e) = -1 := by
    rw [rfindIdx_append, rfindIdx_neg_of_not_mem he, rfindIdx_neg_of_not_mem hs]
    norm_num
  have hdi : rfindIdx '.' ((c :: cs) ++ e) = ((c :: cs).length : Int) := by
    rw [rfindIdx_append, hd]
    norm_num
  have hcond : (-1 : Int) < ((c :: cs).length : Int) := by
    have : (0 : Int) ≤ ((c :: cs).length : Int) := Int.ofNat_nonneg _
    omega
  simp only [splitext0L, hsi, hdi]
  rw [if_pos]
  · have : (((c :: cs).length : Int)).toNat = (c :: cs).length := Int.toNat_ofNat _
    rw [this, List.take_left]
  · constructor
    · exact hcond
    · have h1 : ((-1 : Int) + 1).toNat = 0 := by decide
      rw [h1, List.drop_zero]
      have h2 : (((c :: cs).length : Int) - ((-1 : Int) + 1)).toNat = (c :: cs).length := by
        omega
      rw [h2, List.take_left, List.any_cons]
      have : (c != '.') = true := by
        simpa using hc
      simp [this]

theorem string_toList_append (s t : String) : (s ++ t).toList = s.toList ++ t.toList := rfl

theorem string_mk_toList (s : String) : String.mk s.toList = s := rfl

theorem splitext0_append (stem ext : String)
    (hne : stem.toList ≠ []) (hdot : stem.toList.head? ≠ some '.')
    (hsep : '/' ∉ stem.toList) (hesep : '/' ∉ ext.toList)
    (hedot : rfindIdx '.' ext.toList = 0) :
    splitext0 (stem ++ ext) = stem := by
  obtain ⟨c, cs, hcs⟩ : ∃ c cs, stem.toList = c :: cs := by
    cases h : stem.toList with
    | nil => exact absurd h hne
    | cons a l => exact ⟨a, l, rfl⟩
  have hc : c ≠ '.' := by
    rw [hcs] at hdot
    simpa using hdot
  have hs : '/' ∉ c :: cs := by rw [← hcs]; exact hsep
  have hlist : (stem ++ ext).toList = (c :: cs) ++ ext.toList := by
    rw [string_toList_append, hcs]
  unfold splitext0
  rw [hlist, splitext0L_stem_ext c cs ext.toList hc hs hesep hedot, ← hcs,
    string_mk_toList]

/-- C10: two input files sharing the same stem but with the two
different discovered extensions `.mkv` and `.mp4` are mapped to the
same output path `hardsubbed/<stem>.mp4` (so the second encode targets
the first one's output file).  The hypotheses record that a
glob-discovered filename is nonempty, not hidden (no leading dot) and
contains no path separator. -/
theorem C10_same_stem_same_output (stem : String)
    (hne : stem.toList ≠ [])
    (hdot : stem.toList.head? ≠ some '.')
    (hsep : '/' ∉ stem.toList) :
    out_path (stem ++ ".mkv") = out_path (stem ++ ".mp4") ∧
    out_path (stem ++ ".mkv") = "hardsubbed/" ++ stem ++ ".mp4" := by
  have h1 : splitext0 (stem ++ ".mkv") = stem :=
    splitext0_append stem ".mkv" hne hdot hsep (by decide) (by decide)
  have h2 : splitext0 (stem ++ ".mp4") = stem :=
    splitext0_append stem ".mp4" hne hdot hsep (by decide) (by decide)
  unfold out_path
  rw [h1, h2]
  exact ⟨rfl, rfl⟩

/-- Witness for C10 at the concrete stem `"X"`: both `X.mkv` and
`X.mp4` produce the output path `hardsubbed/X.mp4`. -/
theorem C10_same_stem_same_output_witness :
    out_path ("X" ++ ".mkv") = out_path ("X" ++ ".mp4") ∧
    out_path ("X" ++ ".mkv") = "hardsubbed/" ++ "X" ++ ".mp4" :=
  C10_same_stem_same_output "X" (by decide) (by decide) (by decide)

/-- C1: the claim says `get_audio_flags` with codec `"aac"` and channel
count `2` yields stream-copy flags with no bitrate flag.  In the program
the channel count reaching this comparison is the integer parsed from the
probe's JSON, and the source compares it with the *string* `"2"`, so the
stream-copy branch is not taken: the result is the re-encode flag list,
which does contain the bitrate flag `"-b:a"`.  The claim's other two
parts hold: codec `"flac"` with 6 channels re-encodes to AAC at 192k
forced to 2 channels mapping stream `i`, and codec `"none"` yields the
empty list for every channel count and index. -/
theorem C1_audio_flags_stereo_aac_not_copied :
    (∀ i : Int, get_audio_flags (PyVal.str "aac") (PyVal.int 2) i =
      ["-c:a", "aac", "-b:a", "192k", "-ac", "2", "-map", "0:a:" ++ toString i]) ∧
    (∀ i : Int, get_audio_flags (PyVal.str "flac") (PyVal.int 6) i =
      ["-c:a", "aac", "-b:a", "192k", "-ac", "2", "-map", "0:a:" ++ toString i]) ∧
    (∀ (ch : PyVal) (i : Int), get_audio_flags (PyVal.str "none") ch i = []) ∧
    "-b:a" ∈ get_audio_flags (PyVal.str "aac") (PyVal.int 2) 0 := by
  refine ⟨fun i => rfl, fun i => rfl, fun ch i => ?_, by decide⟩
  simp [get_audio_flags]

/-- C4: `get_filter_flags` yields an overlay graph for
`"hdmv_pgs_subtitle"` (picture-based), a text-subtitle burn-in graph
referencing the source path and stream index for `"subrip"`, and a null
passthrough graph for `"none"`; and for every codec, index and path the
result consists of the filter graph ending in the
downscale-to-at-most-720 scale stage together with the explicit output
mapping flags `-map [v]`. -/
theorem C4_filter_flags_cases :
    (∀ (i : Int) (p : String),
      get_filter_flags "hdmv_pgs_subtitle" i p =
        ["-filter_complex",
         "[0:v][0:s:" ++ toString i ++ "]overlay[burned];" ++ scale_stage,
         "-map", "[v]"]) ∧
    (∀ (i : Int) (p : String),
      get_filter_flags "subrip" i p =
        ["-filter_complex",
         "[0:v]subtitles=\x27" ++ p ++ "\x27:si=" ++ toString i ++ "[burned];" ++ scale_stage,
         "-map", "[v]"]) ∧
    (∀ (i : Int) (p : String),
      get_filter_flags "none" i p =
        ["-filter_complex", "[0:v]null[burned];" ++ scale_stage, "-map", "[v]"]) ∧
    (∀ (codec : String) (i : Int) (p : String), ∃ sf,
      get_filter_flags codec i p =
        ["-filter_complex", sf ++ scale_stage, "-map", "[v]"]) := by
  refine ⟨fun i p => ?_, fun i p => ?_, fun i p => rfl, fun codec i p => ⟨_, rfl⟩⟩
  · simp [get_filter_flags, sub_filter]
  · simp [get_filter_flags, sub_filter]

/-- One entry of the probe's JSON `streams` list, with the fields the
script requests (`codec_type, codec_name, channels` and the tags). -/
structure StreamDesc where
  codec_type : String
  codec_name : String
  channels : PyVal
  tags : List (String × String)
deriving DecidableEq, Repr

/-- Python list indexing `l[i]`: nonnegative indices are positional,
negative indices count from the end, anything else raises `IndexError`
(modelled as `none`). -/
def pyIndex {α : Type} (l : List α) (i : Int) : Option α :=
  if 0 ≤ i then l.get? i.toNat
  else if 0 ≤ (l.length : Int) + i then l.get? ((l.length : Int) + i).toNat
  else none

/-- Audio-track resolution for one probed file (lines 95–108): the
returned `Bool` records whether the interactive prompt was issued, and
`none` models the unhandled `IndexError` from `audio_streams[choice]`.
On success the triple is `(audio_stream, audio_channels, audio_codec)`. -/
def resolve_audio (streams : List StreamDesc) (choice : Int) :
    Bool × Option (Int × PyVal × String) :=
  if 1 < streams.length then
    (true, (pyIndex streams choice).map fun s => (choice, s.channels, s.codec_name))
  else if streams.length = 1 then
    (false, (pyIndex streams 0).map fun s => ((0 : Int), s.channels, s.codec_name))
  else
    (false, some (-1, PyVal.int (-1), "none"))

/-- Subtitle-track resolution for one probed file (lines 110–120),
returning `(subtitle_stream, subtitle_codec)` on success. -/
def resolve_subtitle (streams : List StreamDesc) (choice : Int) :
    Bool × Option (Int × String) :=
  if 1 < streams.length then
    (true, (pyIndex streams choice).map fun s => (choice, s.codec_name))
  else if streams.length = 1 then
    (false, (pyIndex streams 0).map fun s => ((0 : Int), s.codec_name))
  else
    (false, some (-1, "none"))

/-- The `chosen_tracks[key]` record built at lines 122–126. -/
structure Track where
  audio_index : Int
  subtitle_index : Int
  audio_codec : String
  audio_channels : PyVal
  subtitle_codec : String
deriving DecidableEq, Repr

/-- Full track resolution for one probed file: audio first, then
subtitles (the source order); a crash during audio resolution prevents
the subtitle prompt.  The Bool pair records which prompts were issued. -/
def resolve_tracks (audio_streams subtitle_streams : List StreamDesc)
    (achoice schoice : Int) : (Bool × Bool) × Option Track :=
  match resolve_audio audio_streams achoice with
  | (pa, none) => ((pa, false), none)
  | (pa, some (ai, ach, acodec)) =>
    match resolve_subtitle subtitle_streams schoice with
    | (ps, none) => ((pa, ps), none)
    | (ps, some (si, scodec)) =>
      ((pa, ps), some { audio_index := ai, subtitle_index := si,
                        audio_codec := acodec, audio_channels := ach,
                        subtitle_codec := scodec })

theorem list_get?_mem {α : Type} :
    ∀ {l : List α} {n : Nat} {a : α}, l.get? n = some a → a ∈ l := by
  intro l
  induction l with
  | nil => intro n a h; simp [List.get?] at h
  | cons x xs ih =>
    intro n a h
    cases n with
    | zero =>
      simp only [List.get?] at h
      exact (Option.some_inj.mp h) ▸ List.mem_cons_self x xs
    | succ n => exact List.mem_cons_of_mem _ (ih h)

theorem pyIndex_mem {α : Type} {l : List α} {i : Int} {a : α}
    (h : pyIndex l i = some a) : a ∈ l := by
  unfold pyIndex at h
  split_ifs at h
  · exact list_get?_mem h
  · exact list_get?_mem h

/-- C3: the track resolver, for each kind independently: zero
candidates give index `-1` and codec `"none"` (channel sentinel `-1`
for audio) with no prompt; one candidate auto-selects index `0` with no
prompt; two or more candidates prompt (the `Bool` component, issued
exactly once per resolver invocation) and the operator's integer is
used as a positional index into the candidate list in probe order,
codec and channels taken from the chosen descriptor. -/
theorem C3_track_resolver :
    (∀ ch : Int, resolve_audio [] ch = (false, some (-1, PyVal.int (-1), "none"))) ∧
    (∀ (s : StreamDesc) (ch : Int),
      resolve_audio [s] ch = (false, some (0, s.channels, s.codec_name))) ∧
    (∀ (streams : List StreamDesc) (ch : Int) (s : StreamDesc),
      1 < streams.length → 0 ≤ ch → streams.get? ch.toNat = some s →
      resolve_audio streams ch = (true, some (ch, s.channels, s.codec_name))) ∧
    (∀ ch : Int, resolve_subtitle [] ch = (false, some (-1, "none"))) ∧
    (∀ (s : StreamDesc) (ch : Int),
      resolve_subtitle [s] ch = (false, some (0, s.codec_name))) ∧
    (∀ (streams : List StreamDesc) (ch : Int) (s : StreamDesc),
      1 < streams.length → 0 ≤ ch → streams.get? ch.toNat = some s →
      resolve_subtitle streams ch = (true, some (ch, s.codec_name))) := by
  refine ⟨fun ch => rfl, fun s ch => rfl, fun streams ch s h1 h2 h3 => ?_,
    fun ch => rfl, fun s ch => rfl, fun streams ch s h1 h2 h3 => ?_⟩
  · have hp : pyIndex streams ch = some s := by
      unfold pyIndex
      rw [if_pos h2]
      exact h3
    unfold resolve_audio
    rw [if_pos h1, hp]
    rfl
  · have hp : pyIndex streams ch = some s := by
      unfold pyIndex
      rw [if_pos h2]
      exact h3
    unfold resolve_subtitle
    rw [if_pos h1, hp]
    rfl

/-- A stereo AAC audio descriptor used in concrete witnesses. -/
def sampleAac : StreamDesc :=
  { codec_type := "audio", codec_name := "aac", channels := PyVal.int 2, tags := [] }

/-- A 6-channel FLAC audio descriptor used in concrete witnesses. -/
def sampleFlac : StreamDesc :=
  { codec_type := "audio", codec_name := "flac", channels := PyVal.int 6, tags := [] }

/-- A text subtitle descriptor used in concrete witnesses. -/
def sampleSrt : StreamDesc :=
  { codec_type := "subtitle", codec_name := "subrip", channels := PyVal.int 0, tags := [] }

/-- A picture subtitle descriptor used in concrete witnesses. -/
def samplePgs : StreamDesc :=
  { codec_type := "subtitle", codec_name := "hdmv_pgs_subtitle", channels := PyVal.int 0,
    tags := [] }

/-- Witness for C3: with two audio candidates and operator input `1`
the resolver prompts and selects the second descriptor; with two
subtitle candidates and input `0` it prompts and selects the first. -/
theorem C3_track_resolver_witness :
    resolve_audio [sampleAac, sampleFlac] 1 = (true, some (1, PyVal.int 6, "flac")) ∧
    resolve_subtitle [sampleSrt, samplePgs] 0 = (true, some (0, "subrip")) :=
  ⟨C3_track_resolver.2.2.1 [sampleAac, sampleFlac] 1 sampleFlac
      (by decide) (by decide) (by decide),
   C3_track_resolver.2.2.2.2.2 [sampleSrt, samplePgs] 0 sampleSrt
      (by decide) (by decide) (by decide)⟩

theorem resolve_audio_classify (streams : List StreamDesc) (ch : Int)
    (hch : 1 < streams.length → 0 ≤ ch) {ai : Int} {ach : PyVal} {ac : String}
    (h : (resolve_audio streams ch).2 = some (ai, ach, ac)) :
    (ai = -1 ∧ ac = "none") ∨ (0 ≤ ai ∧ ∃ s ∈ streams, ac = s.codec_name) := by
  unfold resolve_audio at h
  split_ifs at h with h1 h2
  · cases hp : pyIndex streams ch with
    | none => rw [hp] at h; exact absurd h (by simp)
    | some s =>
      rw [hp] at h
      have h' : (ch, s.channels, s.codec_name) = (ai, ach, ac) := Option.some_inj.mp h
      have hai : ch = ai := congrArg Prod.fst h'
      have hac : s.codec_name = ac := congrArg (fun p => p.2.2) h'
      exact Or.inr ⟨hai ▸ hch h1, s, pyIndex_mem hp, hac.symm⟩
  · cases streams with
    | nil => simp at h2
    | cons s rest =>
      have hrest : rest = [] := by
        cases rest with
        | nil => rfl
        | cons a l => simp at h2
      subst hrest
      have h' : ((0 : Int), s.channels, s.codec_name) = (ai, ach, ac) :=
        Option.some_inj.mp h
      have hai : (0 : Int) = ai := congrArg Prod.fst h'
      have hac : s.codec_name = ac := congrArg (fun p => p.2.2) h'
      exact Or.inr ⟨hai ▸ le_refl 0, s, List.mem_cons_self s [], hac.symm⟩
  · have h' : ((-1 : Int), PyVal.int (-1), "none") = (ai, ach, ac) :=
      Option.some_inj.mp h
    have hai : (-1 : Int) = ai := congrArg Prod.fst h'
    have hac : "none" = ac := congrArg (fun p => p.2.2) h'
    exact Or.inl ⟨hai.symm, hac.symm⟩

theorem resolve_subtitle_classify (streams : List StreamDesc) (ch : Int)
    (hch : 1 < streams.length → 0 ≤ ch) {si : Int} {sc : String}
    (h : (resolve_subtitle streams ch).2 = some (si, sc)) :
    (si = -1 ∧ sc = "none") ∨ (0 ≤ si ∧ ∃ s ∈ streams, sc = s.codec_name) := by
  unfold resolve_subtitle at h
  split_ifs at h with h1 h2
  · cases hp : pyIndex streams ch with
    | none => rw [hp] at h; exact absurd h (by simp)
    | some s =>
      rw [hp] at h
      have h' : (ch, s.codec_name) = (si, sc) := Option.some_inj.mp h
      have hsi : ch = si := congrArg Prod.fst h'
      have hsc : s.codec_name = sc := congrArg Prod.snd h'
      exact Or.inr ⟨hsi ▸ hch h1, s, pyIndex_mem hp, hsc.symm⟩
  · cases streams with
    | nil => simp at h2
    | cons s rest =>
      have hrest : rest = [] := by
        cases rest with
        | nil => rfl
        | cons a l => simp at h2
      subst hrest
      have h' : ((0 : Int), s.codec_name) = (si, sc) := Option.some_inj.mp h
      have hsi : (0 : Int) = si := congrArg Prod.fst h'
      have hsc : s.codec_name = sc := congrArg Prod.snd h'
      exact Or.inr ⟨hsi ▸ le_refl 0, s, List.mem_cons_self s [], hsc.symm⟩
  · have h' : ((-1 : Int), "none") = (si, sc) := Option.some_inj.mp h
    have hsi : (-1 : Int) = si := congrArg Prod.fst h'
    have hsc : "none" = sc := congrArg Prod.snd h'
    exact Or.inl ⟨hsi.symm, hsc.symm⟩

/-- An audio descriptor whose codec name is the literal `"none"`. -/
def sampleNoneCodec : StreamDesc :=
  { codec_type := "audio", codec_name := "none", channels := PyVal.int 2, tags := [] }

/-- The selection produced from two audio candidates and operator input `-1`. -/
def badTrackNegIdx : Track :=
  { audio_index := -1, subtitle_index := -1, audio_codec := "flac",
    audio_channels := PyVal.int 6, subtitle_codec := "none" }

/-- The selection produced from a single audio candidate named `"none"`. -/
def badTrackNoneName : Track :=
  { audio_index := 0, subtitle_index := -1, audio_codec := "none",
    audio_channels := PyVal.int 2, subtitle_codec := "none" }

/-- A well-behaved selection used as the witness input below. -/
def goodTrack : Track :=
  { audio_index := 1, subtitle_index := 0, audio_codec := "flac",
    audio_channels := PyVal.int 6, subtitle_codec := "subrip" }

/-- Counterexample to C7 as stated (for *any* integer operator input
and *any* candidate lists): with two audio candidates (aac, flac) and
operator input `-1`, Python's negative indexing selects the last
descriptor, so the produced record has `audio_index = -1` yet
`audio_codec = "flac" ≠ "none"`; and with a single audio candidate
whose `codec_name` is the literal `"none"`, the record has
`audio_index = 0 ≥ 0` yet `audio_codec = "none"`.  Both violate
`audio_index ≥ 0 ↔ audio_codec ≠ "none"`. -/
theorem C7_selection_invariant_counterexample :
    (resolve_tracks [sampleAac, sampleFlac] [] (-1) 0).2 = some badTrackNegIdx ∧
    ¬ (0 ≤ badTrackNegIdx.audio_index ↔ badTrackNegIdx.audio_codec ≠ "none") ∧
    (resolve_tracks [sampleNoneCodec] [] 0 0).2 = some badTrackNoneName ∧
    ¬ (0 ≤ badTrackNoneName.audio_index ↔ badTrackNoneName.audio_codec ≠ "none") := by
  refine ⟨rfl, ?_, rfl, ?_⟩ <;> decide

/-- C7 amended: every selection record produced by resolution satisfies
`audio_index ≥ 0 ↔ audio_codec ≠ "none"` and
`subtitle_index ≥ 0 ↔ subtitle_codec ≠ "none"`, provided the operator
input at any prompt is nonnegative and no candidate descriptor carries
the codec name `"none"`. -/
theorem C7_selection_invariant_amended (audio subs : List StreamDesc)
    (ca cs : Int) (t : Track)
    (hac : ∀ s ∈ audio, s.codec_name ≠ "none")
    (hsc : ∀ s ∈ subs, s.codec_name ≠ "none")
    (hca : 1 < audio.length → 0 ≤ ca)
    (hcs : 1 < subs.length → 0 ≤ cs)
    (ht : (resolve_tracks audio subs ca cs).2 = some t) :
    (0 ≤ t.audio_index ↔ t.audio_codec ≠ "none") ∧
    (0 ≤ t.subtitle_index ↔ t.subtitle_codec ≠ "none") := by
  unfold resolve_tracks at ht
  cases hA : resolve_audio audio ca with
  | mk pa oa =>
    rw [hA] at ht
    cases oa with
    | none => simp at ht
    | some trip =>
      obtain ⟨ai, ach, ac⟩ := trip
      cases hS : resolve_subtitle subs cs with
      | mk ps os =>
        rw [hS] at ht
        cases os with
        | none => simp at ht
        | some pr =>
          obtain ⟨si, sc⟩ := pr
          simp only [Option.some_inj] at ht
          have hA2 : (resolve_audio audio ca).2 = some (ai, ach, ac) := by rw [hA]
          have hS2 : (resolve_subtitle subs cs).2 = some (si, sc) := by rw [hS]
          have caseA := resolve_audio_classify audio ca hca hA2
          have caseS := resolve_subtitle_classify subs cs hcs hS2
          subst ht
          constructor
          · rcases caseA with ⟨hi, hc⟩ | ⟨hi, s, hmem, hc⟩
            · simp only [hi, hc]
              constructor
              · intro hx
                exact absurd hx (by decide)
              · intro hx
                exact absurd rfl hx
            · simp only []
              constructor
              · intro _
                exact hc ▸ hac s hmem
              · intro _
                exact hi
          · rcases caseS with ⟨hi, hc⟩ | ⟨hi, s, hmem, hc⟩
            · simp only [hi, hc]
              constructor
              · intro hx
                exact absurd hx (by decide)
              · intro hx
                exact absurd rfl hx
            · constructor
              · intro _
                exact hc ▸ hsc s hmem
              · intro _
                exact hi

/-- Witness for the amended C7 at concrete inputs: two audio
candidates with operator input `1` and one subtitle candidate. -/
theorem C7_selection_invariant_amended_witness :
    (0 ≤ goodTrack.audio_index ↔ goodTrack.audio_codec ≠ "none") ∧
    (0 ≤ goodTrack.subtitle_index ↔ goodTrack.subtitle_codec ≠ "none") :=
  C7_selection_invariant_amended [sampleAac, sampleFlac] [sampleSrt] 1 0 goodTrack
    (by decide) (by decide) (by decide) (by decide) (by decide)

/-!
The key extractor (lines 42–44) applies
`re.match(r"\[(.+)\] (.+) - (\d+) .*", file)` and returns group 2 on a
match, the whole filename otherwise.  The regex is embedded as a
backtracking matcher with Python's greedy preference (longest
alternative first).  Since the trailing `.*` always succeeds, a match
succeeds exactly when a prefix of the input decomposes as
`[` group `] ` title ` - ` digits ` `.  `\d` is modelled as an ASCII
digit and `.` matches every character except a newline.
-/

/-- Matching `(\d+) ` at the head of the input: the maximal digit run, which
must be nonempty and followed by a space (shorter runs cannot satisfy
the following literal space, so no backtracking arises). -/
def matchNum (l : List Char) : Option (List Char) :=
  if l.takeWhile Char.isDigit ≠ [] ∧ (l.dropWhile Char.isDigit).head? = some ' ' then
    some (l.takeWhile Char.isDigit)
  else none

/-- Greedy matching of `(.+) - (\d+) .*` against the suffix, with the
characters already absorbed into group 2 accumulated in reverse in
`revPre`: first try to extend the group, then try to close it here. -/
def g2aux : List Char → List Char → Option (List Char × List Char)
  | _, [] => none
  | revPre, c :: rest =>
    (if c ≠ '\n' then g2aux (c :: revPre) rest else none) <|>
    (if revPre ≠ [] then
      match c :: rest with
      | ' ' :: '-' :: ' ' :: tail => (matchNum tail).map fun ds => (revPre.reverse, ds)
      | _ => none
    else none)

/-- Greedy matching of `(.+)\] (.+) - (\d+) .*` against the suffix,
with the characters already absorbed into group 1 accumulated in
reverse in `revPre`. -/
def g1aux : List Char → List Char → Option (List Char × List Char × List Char)
  | _, [] => none
  | revPre, c :: rest =>
    (if c ≠ '\n' then g1aux (c :: revPre) rest else none) <|>
    (if revPre ≠ [] then
      match c :: rest with
      | ']' :: ' ' :: tail => (g2aux [] tail).map fun td => (revPre.reverse, td.1, td.2)
      | _ => none
    else none)

/-- Model of `re.match(r"\[(.+)\] (.+) - (\d+) .*", ·)`: the three captured
groups, or `none` when the pattern does not match. -/
def pyMatch (l : List Char) : Option (List Char × List Char × List Char) :=
  match l with
  | '[' :: rest => g1aux [] rest
  | _ => none

/-- Model of `get_key(file)` from `convert.py` (lines 42–44): group 2 of the
match when the pattern matches, the whole filename otherwise. -/
def get_key (file : String) : String :=
  match pyMatch file.toList with
  | some gtd => String.mk gtd.2.1
  | none => file

/-- A successful decomposition of the input against the pattern
`\[(.+)\] (.+) - (\d+) .*` with groups `g`, `t`, `d` and unconstrained
remainder `r`. -/
def PatDecomp (l g t d r : List Char) : Prop :=
  l = '[' :: (g ++ ']' :: ' ' :: (t ++ ' ' :: '-' :: ' ' :: (d ++ ' ' :: r))) ∧
  g ≠ [] ∧ t ≠ [] ∧ d ≠ [] ∧ '\n' ∉ g ∧ '\n' ∉ t ∧ ∀ c ∈ d, c.isDigit

theorem takeWhile_all {p : Char → Bool} :
    ∀ l : List Char, ∀ c ∈ l.takeWhile p, p c := by
  intro l
  induction l with
  | nil => intro c hc; simp [List.takeWhile] at hc
  | cons x xs ih =>
    intro c hc
    by_cases hx : p x
    · rw [List.takeWhile_cons, if_pos hx] at hc
      rcases List.mem_cons.mp hc with h | h
      · exact h ▸ hx
      · exact ih c h
    · rw [List.takeWhile_cons, if_neg hx] at hc
      simp at hc

theorem matchNum_sound {l ds : List Char} (h : matchNum l = some ds) :
    ∃ r, l = ds ++ ' ' :: r ∧ ds ≠ [] ∧ ∀ c ∈ ds, c.isDigit := by
  unfold matchNum at h
  split_ifs at h with hcond
  · obtain ⟨hne, hhead⟩ := hcond
    have hds : ds = l.takeWhile Char.isDigit := (Option.some_inj.mp h).symm
    obtain ⟨r, hr⟩ : ∃ r, l.dropWhile Char.isDigit = ' ' :: r := by
      cases hd : l.dropWhile Char.isDigit with
      | nil => rw [hd] at hhead; simp at hhead
      | cons a as =>
        rw [hd] at hhead
        simp only [List.head?] at hhead
        exact ⟨as, by rw [Option.some_inj.mp hhead]⟩
    refine ⟨r, ?_, hds ▸ hne, hds ▸ takeWhile_all l⟩
    rw [hds, ← hr, List.takeWhile_append_dropWhile]

theorem takeWhile_digits_append {d r : List Char}
    (hd : ∀ c ∈ d, c.isDigit) :
    (d ++ ' ' :: r).takeWhile Char.isDigit = d ∧
    (d ++ ' ' :: r).dropWhile Char.isDigit = ' ' :: r := by
  induction d with
  | nil => simp [List.takeWhile, List.dropWhile]
  | cons x xs ih =>
    have hx : Char.isDigit x := hd x (List.mem_cons_self x xs)
    have hxs : ∀ c ∈ xs, c.isDigit := fun c hc => hd c (List.mem_cons_of_mem x hc)
    obtain ⟨iht, ihd⟩ := ih hxs
    constructor
    · rw [List.cons_append, List.takeWhile_cons, if_pos hx, iht]
    · rw [List.cons_append, List.dropWhile_cons, if_pos hx, ihd]

theorem matchNum_complete {d r : List Char} (hne : d ≠ [])
    (hd : ∀ c ∈ d, c.isDigit) :
    matchNum (d ++ ' ' :: r) = some d := by
  obtain ⟨ht, hdr⟩ := takeWhile_digits_append (r := r) hd
  unfold matchNum
  rw [if_pos]
  · rw [ht]
  · rw [ht, hdr]
    exact ⟨hne, rfl⟩

theorem option_orElse_some {α : Type} (a : α) (b : Option α) :
    ((some a <|> b) : Option α) = some a := rfl

theorem option_orElse_none {α : Type} (b : Option α) :
    ((none <|> b) : Option α) = b := rfl

theorem g2aux_sound :
    ∀ (suf revPre t d : List Char), g2aux revPre suf = some (t, d) →
      ∃ mid r, suf = mid ++ ' ' :: '-' :: ' ' :: (d ++ ' ' :: r) ∧
        t = revPre.reverse ++ mid ∧ '\n' ∉ mid ∧
        (revPre ≠ [] ∨ mid ≠ []) ∧ d ≠ [] ∧ ∀ c ∈ d, c.isDigit := by
  intro suf
  induction suf with
  | nil => intro revPre t d h; simp [g2aux] at h
  | cons c rest ih =>
    intro revPre t d h
    unfold g2aux at h
    cases hA : (if c ≠ '\n' then g2aux (c :: revPre) rest else none) with
    | some val =>
      rw [hA, option_orElse_some] at h
      have hval : val = (t, d) := Option.some_inj.mp h
      subst hval
      have hc : c ≠ '\n' := by
        by_contra hcc
        rw [if_neg (fun hne : c ≠ '\n' => hne hcc)] at hA
        exact Option.noConfusion hA
      rw [if_pos hc] at hA
      obtain ⟨mid', r, hrest, ht, hnl, _, hdne, hdig⟩ := ih (c :: revPre) t d hA
      refine ⟨c :: mid', r, ?_, ?_, ?_, Or.inr (List.cons_ne_nil c mid'), hdne, hdig⟩
      · rw [List.cons_append, hrest]
      · rw [ht, List.reverse_cons, List.append_assoc, List.singleton_append]
      · intro hmem
        rcases List.mem_cons.mp hmem with hx | hx
        · exact hc hx.symm
        · exact hnl hx
    | none =>
      rw [hA, option_orElse_none] at h
      by_cases hrp : revPre ≠ []
      · rw [if_pos hrp] at h
        split at h
        · rename_i tail heq
          cases hm : matchNum tail with
          | none => rw [hm] at h; exact Option.noConfusion h
          | some ds =>
            rw [hm] at h
            have h' : (revPre.reverse, ds) = (t, d) := Option.some_inj.mp h
            have ht : revPre.reverse = t := congrArg Prod.fst h'
            have hd : ds = d := congrArg Prod.snd h'
            obtain ⟨r, htail, hdne, hdig⟩ := matchNum_sound hm
            obtain ⟨hceq, hresteq⟩ := List.cons.inj heq
            refine ⟨[], r, ?_, ?_, by simp, Or.inl hrp, hd ▸ hdne, hd ▸ hdig⟩
            · rw [List.nil_append, hceq, hresteq, htail, hd]
            · rw [← ht, List.append_nil]
        · rename_i hnomatch
          exact Option.noConfusion h
      · rw [if_neg hrp] at h
        exact Option.noConfusion h

theorem g2aux_complete :
    ∀ (tl revPre d r : List Char), d ≠ [] → (∀ c ∈ d, c.isDigit) →
      '\n' ∉ tl → (revPre ≠ [] ∨ tl ≠ []) →
      (g2aux revPre (tl ++ ' ' :: '-' :: ' ' :: (d ++ ' ' :: r))).isSome := by
  intro tl
  induction tl with
  | nil =>
    intro revPre d r hdne hdig _ hor
    have hrp : revPre ≠ [] := by
      rcases hor with h | h
      · exact h
      · exact absurd rfl h
    rw [List.nil_append]
    unfold g2aux
    cases hA : (if (' ' : Char) ≠ '\n' then g2aux (' ' :: revPre) ('-' :: ' ' :: (d ++ ' ' :: r)) else none) with
    | some val => rfl
    | none =>
      rw [option_orElse_none, if_pos hrp]
      show (Option.map (fun ds => (revPre.reverse, ds)) (matchNum (d ++ ' ' :: r))).isSome = true
      rw [matchNum_complete hdne hdig]
      rfl
  | cons c tl ih =>
    intro revPre d r hdne hdig hnl hor
    have hc : c ≠ '\n' := fun h => hnl (h ▸ List.mem_cons_self c tl)
    have hnl' : '\n' ∉ tl := fun h => hnl (List.mem_cons_of_mem c h)
    have hrec := ih (c :: revPre) d r hdne hdig hnl' (Or.inl (List.cons_ne_nil c revPre))
    rw [List.cons_append]
    unfold g2aux
    rw [if_pos hc]
    cases hA : g2aux (c :: revPre) (tl ++ ' ' :: '-' :: ' ' :: (d ++ ' ' :: r)) with
    | some val => rfl
    | none =>
      rw [hA] at hrec
      exact Bool.noConfusion hrec

theorem g1aux_sound :
    ∀ (suf revPre g t d : List Char), g1aux revPre suf = some (g, t, d) →
      ∃ mid tail, suf = mid ++ ']' :: ' ' :: tail ∧
        g = revPre.reverse ++ mid ∧ '\n' ∉ mid ∧
        (revPre ≠ [] ∨ mid ≠ []) ∧ g2aux [] tail = some (t, d) := by
  intro suf
  induction suf with
  | nil => intro revPre g t d h; simp [g1aux] at h
  | cons c rest ih =>
    intro revPre g t d h
    unfold g1aux at h
    cases hA : (if c ≠ '\n' then g1aux (c :: revPre) rest else none) with
    | some val =>
      rw [hA, option_orElse_some] at h
      have hval : val = (g, t, d) := Option.some_inj.mp h
      subst hval
      have hc : c ≠ '\n' := by
        by_contra hcc
        rw [if_neg (fun hne : c ≠ '\n' => hne hcc)] at hA
        exact Option.noConfusion hA
      rw [if_pos hc] at hA
      obtain ⟨mid', tail, hrest, hg, hnl, _, hg2⟩ := ih (c :: revPre) g t d hA
      refine ⟨c :: mid', tail, ?_, ?_, ?_, Or.inr (List.cons_ne_nil c mid'), hg2⟩
      · rw [List.cons_append, hrest]
      · rw [hg, List.reverse_cons, List.append_assoc, List.singleton_append]
      · intro hmem
        rcases List.mem_cons.mp hmem with hx | hx
        · exact hc hx.symm
        · exact hnl hx
    | none =>
      rw [hA, option_orElse_none] at h
      by_cases hrp : revPre ≠ []
      · rw [if_pos hrp] at h
        split at h
        · rename_i tail heq
          cases hm : g2aux [] tail with
          | none => rw [hm] at h; exact Option.noConfusion h
          | some td =>
            rw [hm] at h
            have h' : (revPre.reverse, td.1, td.2) = (g, t, d) := Option.some_inj.mp h
            have hg : revPre.reverse = g := congrArg Prod.fst h'
            have ht : td.1 = t := congrArg (fun p => p.2.1) h'
            have hd : td.2 = d := congrArg (fun p => p.2.2) h'
            obtain ⟨hceq, hresteq⟩ := List.cons.inj heq
            refine ⟨[], tail, ?_, ?_, by simp, Or.inl hrp, ?_⟩
            · rw [List.nil_append, hceq, hresteq]
            · rw [← hg, List.append_nil]
            · rw [hm, ← ht, ← hd]
        · rename_i hnomatch
          exact Option.noConfusion h
      · rw [if_neg hrp] at h
        exact Option.noConfusion h

theorem g1aux_complete :
    ∀ (gl revPre tail : List Char), (g2aux [] tail).isSome →
      '\n' ∉ gl → (revPre ≠ [] ∨ gl ≠ []) →
      (g1aux revPre (gl ++ ']' :: ' ' :: tail)).isSome := by
  intro gl
  induction gl with
  | nil =>
    intro revPre tail h2 _ hor
    have hrp : revPre ≠ [] := by
      rcases hor with h | h
      · exact h
      · exact absurd rfl h
    rw [List.nil_append]
    unfold g1aux
    cases hA : (if (']' : Char) ≠ '\n' then g1aux (']' :: revPre) (' ' :: tail) else none) with
    | some val => rfl
    | none =>
      rw [option_orElse_none, if_pos hrp]
      show ((g2aux [] tail).map fun td => (revPre.reverse, td.1, td.2)).isSome = true
      cases hm : g2aux [] tail with
      | some td => rfl
      | none => rw [hm] at h2; exact Bool.noConfusion h2
  | cons c gl ih =>
    intro revPre tail h2 hnl hor
    have hc : c ≠ '\n' := fun h => hnl (h ▸ List.mem_cons_self c gl)
    have hnl' : '\n' ∉ gl := fun h => hnl (List.mem_cons_of_mem c h)
    have hrec := ih (c :: revPre) tail h2 hnl' (Or.inl (List.cons_ne_nil c revPre))
    rw [List.cons_append]
    unfold g1aux
    rw [if_pos hc]
    cases hA : g1aux (c :: revPre) (gl ++ ']' :: ' ' :: tail) with
    | some val => rfl
    | none =>
      rw [hA] at hrec
      exact Bool.noConfusion hrec

theorem pyMatch_sound {l g t d : List Char} (h : pyMatch l = some (g, t, d)) :
    ∃ r, PatDecomp l g t d r := by
  unfold pyMatch at h
  split at h
  · rename_i rest
    obtain ⟨mid, tail, hrest, hg, hnlg, horg, hg2⟩ := g1aux_sound rest [] g t d h
    obtain ⟨mid2, r, htail, ht, hnlt, hort, hdne, hdig⟩ := g2aux_sound tail [] t d hg2
    have hgmid : g = mid := by rw [hg, List.reverse_nil, List.nil_append]
    have htmid : t = mid2 := by rw [ht, List.reverse_nil, List.nil_append]
    have hgne : g ≠ [] := by
      rcases horg with hx | hx
      · exact absurd rfl hx
      · exact hgmid ▸ hx
    have htne : t ≠ [] := by
      rcases hort with hx | hx
      · exact absurd rfl hx
      · exact htmid ▸ hx
    refine ⟨r, ?_, hgne, htne, hdne, hgmid ▸ hnlg, htmid ▸ hnlt, hdig⟩
    rw [hrest, htail, hgmid, htmid]
  · exact Option.noConfusion h

theorem pyMatch_complete {l g t d r : List Char} (h : PatDecomp l g t d r) :
    (pyMatch l).isSome := by
  obtain ⟨hl, hgne, htne, hdne, hnlg, hnlt, hdig⟩ := h
  subst hl
  have h2 : (g2aux [] (t ++ ' ' :: '-' :: ' ' :: (d ++ ' ' :: r))).isSome :=
    g2aux_complete t [] d r hdne hdig hnlt (Or.inr htne)
  have h1 := g1aux_complete g [] (t ++ ' ' :: '-' :: ' ' :: (d ++ ' ' :: r))
    h2 hnlg (Or.inr hgne)
  unfold pyMatch
  exact h1

/-- C5: if the pattern `\[(.+)\] (.+) - (\d+) .*` matches the filename,
`get_key` returns exactly the captured Title segment (group 2), and the
captured groups really decompose the filename against the pattern; if
the matcher fails there is no such decomposition and `get_key` returns
the whole filename unchanged.  `get_key` is total, so it always returns
a string. -/
theorem C5_key_extraction (file : String) :
    (∀ g t d, pyMatch file.toList = some (g, t, d) →
      (∃ r, PatDecomp file.toList g t d r) ∧ get_key file = String.mk t) ∧
    (pyMatch file.toList = none →
      (¬ ∃ g t d r, PatDecomp file.toList g t d r) ∧ get_key file = file) := by
  constructor
  · intro g t d h
    refine ⟨pyMatch_sound h, ?_⟩
    unfold get_key
    rw [h]
  · intro h
    constructor
    · rintro ⟨g, t, d, r, hdec⟩
      have hs := pyMatch_complete hdec
      rw [h] at hs
      exact Bool.noConfusion hs
    · unfold get_key
      rw [h]

/-- Witness for C5 at concrete filenames: a conforming filename is
keyed by its Title segment, a non-conforming one by itself. -/
theorem C5_key_extraction_witness :
    ((∃ r, PatDecomp ("[HS] Nichijou - 01 [720p].mkv").toList
        "HS".toList "Nichijou".toList "01".toList r) ∧
      get_key "[HS] Nichijou - 01 [720p].mkv" = String.mk "Nichijou".toList) ∧
    ((¬ ∃ g t d r, PatDecomp ("episode one.mkv").toList g t d r) ∧
      get_key "episode one.mkv" = "episode one.mkv") :=
  ⟨(C5_key_extraction "[HS] Nichijou - 01 [720p].mkv").1 _ _ _ (by decide),
   (C5_key_extraction "episode one.mkv").2 (by decide)⟩

/-- Observable events of one run: probe subprocess spawns, interactive
prompts, stderr diagnostics, and encoder invocations (with their full
argument list). -/
inductive Event where
  | probe (file : String)
  | promptAudio (key : String)
  | promptSub (key : String)
  | errPrint (msg : String)
  | encode (args : List String)
deriving DecidableEq, Repr

/-- The result of one `ffprobe` subprocess: its exit code and the
parse of its stdout as a JSON object with a `streams` list (`none`
models stdout that `json.loads` rejects or that lacks `"streams"`). -/
structure ProbeResult where
  returncode : Int
  parsed : Option (List StreamDesc)

/-- The external collaborators of `main`: the filesystem (output
directory state and `os.mkdir` failure), the probe subprocess per
file, the operator's integer answer per prompted series key, and the
encoder subprocess exit code or launch failure per file. -/
structure Env where
  dir_exists : Bool
  mkdir_error : Option String
  probe : String → ProbeResult
  audio_choice : String → Int
  sub_choice : String → Int
  encode_rc : String → Int
  encode_launch_error : String → Option String

/-- Lookup in the `chosen_tracks` dict. -/
def lookupReg : List (String × Track) → String → Option Track
  | [], _ => none
  | (k, t) :: rest, key => if k = key then some t else lookupReg rest key

/-- Lexicographic comparison of code-point sequences: Python's `<=`
on strings. -/
def charListLe : List Char → List Char → Bool
  | [], _ => true
  | _ :: _, [] => false
  | c1 :: l1, c2 :: l2 =>
    if c1.toNat < c2.toNat then true
    else if c2.toNat < c1.toNat then false
    else charListLe l1 l2

/-- Python string `<=`. -/
def str_le (a b : String) : Bool := charListLe a.toList b.toList

/-- Insertion step of insertion sort by `<=` on strings. -/
def insertSorted (x : String) : List String → List String
  | [] => [x]
  | y :: ys => if str_le x y then x :: y :: ys else y :: insertSorted x ys

/-- Model of `sorted(file_list)` (line 66): lexicographic ascending. -/
def sortFiles (l : List String) : List String := l.foldr insertSorted []

/-- The fixed `video_flags` list (lines 132–139). -/
def video_flags : List String :=
  ["-c:v", "libx264", "-profile:v", "main", "-preset:v", "veryslow", "-crf", "18",
   "-tune", "animation", "-bf", "16", "-aq-mode", "2", "-pix_fmt", "yuv420p"]

/-- The probe invocation's events: the spawn itself and, for a nonzero
exit code, the stderr report of line 88. -/
def probe_events (pr : ProbeResult) (file : String) : List Event :=
  [Event.probe file] ++
    (if pr.returncode ≠ 0 then
      [Event.errPrint ("probe failed with code: " ++ toString pr.returncode)]
     else [])

/-- The prompt events issued while resolving one key (audio prompt
first, subtitle prompt second). -/
def prompt_events (key : String) (pa ps : Bool) : List Event :=
  (if pa then [Event.promptAudio key] else []) ++
    (if ps then [Event.promptSub key] else [])

/-- One iteration of the Pass-1 loop (lines 74–126) for one file:
skip resolved keys, otherwise probe, report a nonzero probe exit code,
parse (an unparsable probe output raises an unhandled exception,
`Except.error`), partition the streams and resolve the tracks. -/
def pass1_file (env : Env) (reg : List (String × Track)) (file : String) :
    List Event × Except Unit (List (String × Track)) :=
  if (lookupReg reg (get_key file)).isSome then ([], Except.ok reg)
  else
    match (env.probe file).parsed with
    | none => (probe_events (env.probe file) file, Except.error ())
    | some streams =>
      match resolve_tracks (streams.filter fun s => s.codec_type == "audio")
          (streams.filter fun s => s.codec_type == "subtitle")
          (env.audio_choice (get_key file)) (env.sub_choice (get_key file)) with
      | ((pa, ps), none) =>
        (probe_events (env.probe file) file ++ prompt_events (get_key file) pa ps,
         Except.error ())
      | ((pa, ps), some t) =>
        (probe_events (env.probe file) file ++ prompt_events (get_key file) pa ps,
         Except.ok ((get_key file, t) :: reg))

/-- Pass 1 (probe and resolve every unresolved key, in order). -/
def pass1 (env : Env) : List String → List (String × Track) →
    List Event × Except Unit (List (String × Track))
  | [], reg => ([], Except.ok reg)
  | f :: fs, reg =>
    match pass1_file env reg f with
    | (evs, Except.error ()) => (evs, Except.error ())
    | (evs, Except.ok reg1) =>
      let rest := pass1 env fs reg1
      (evs ++ rest.1, rest.2)

/-- The full encoder argument list built at lines 155–162.  Note the
swapped arguments `get_audio_flags(audio_channels, audio_codec,
audio_index)` of line 147: the channel count is passed as the codec and
the codec as the channel count. -/
def encode_args (file : String) (ti : Track) : List String :=
  ["ffmpeg", "-hide_banner", "-loglevel", "warning", "-stats", "-i", file] ++
    video_flags ++
    get_audio_flags ti.audio_channels (PyVal.str ti.audio_codec) ti.audio_index ++
    get_filter_flags ti.subtitle_codec ti.subtitle_index file ++
    [out_path file]

/-- One iteration of the Pass-2 loop (lines 128–169) for one file:
look the key up (a missing key would be an unhandled `KeyError`),
build the flags and invoke the encoder; a launch failure (`OSError`)
is caught, reported and skipped; a nonzero exit code is reported. -/
def pass2_file (env : Env) (reg : List (String × Track)) (file : String) :
    List Event × Except Unit Unit :=
  match lookupReg reg (get_key file) with
  | none => ([], Except.error ())
  | some ti =>
    match env.encode_launch_error file with
    | some msg =>
      ([Event.errPrint msg, Event.errPrint "skipping file"], Except.ok ())
    | none =>
      ([Event.encode (encode_args file ti)] ++
        (if env.encode_rc file ≠ 0 then [Event.errPrint "encode failed with invocation"]
         else []),
       Except.ok ())

/-- Pass 2 (encode every file, in order). -/
def pass2 (env : Env) (reg : List (String × Track)) : List String →
    List Event × Except Unit Unit
  | [] => ([], Except.ok ())
  | f :: fs =>
    match pass2_file env reg f with
    | (evs, Except.error ()) => (evs, Except.error ())
    | (evs, Except.ok ()) =>
      let rest := pass2 env reg fs
      (evs ++ rest.1, rest.2)

/-- How the process terminates: `sys.exit()` with no argument after a
directory-creation failure (exit status 0), an unhandled exception
(exit status 1), or falling off the end of `main` (exit status 0). -/
inductive Outcome where
  | sysExitZero
  | crash
  | normal
deriving DecidableEq, Repr

/-- The process exit status of each outcome. -/
def exit_status : Outcome → Nat
  | Outcome.sysExitZero => 0
  | Outcome.crash => 1
  | Outcome.normal => 0

/-- The body of `main` after the output directory exists: sort the
discovered files, run Pass 1 and, unless Pass 1 died with an unhandled
exception, run Pass 2 over the registry it built.  The trace is the
Pass-1 events followed by the Pass-2 events; the run crashes if either
pass raised, and falls through to a normal exit otherwise. -/
def run_body (env : Env) (files : List String) : List Event × Outcome :=
  ((pass1 env (sortFiles files) []).1 ++
      (match (pass1 env (sortFiles files) []).2 with
       | Except.error _ => []
       | Except.ok reg => (pass2 env reg (sortFiles files)).1),
   match (pass1 env (sortFiles files) []).2 with
   | Except.error _ => Outcome.crash
   | Except.ok reg =>
     match (pass2 env reg (sortFiles files)).2 with
     | Except.error _ => Outcome.crash
     | Except.ok _ => Outcome.normal)

/-- Model of `main()` (lines 55–169): ensure the output directory, then the two
passes.  On `os.mkdir` failure the error is printed and `sys.exit()`
terminates the run with exit status 0. -/
def runMain (env : Env) (files : List String) : List Event × Outcome :=
  if env.dir_exists then run_body env files
  else
    match env.mkdir_error with
    | some msg => ([Event.errPrint msg], Outcome.sysExitZero)
    | none => run_body env files

/-- Is the event an encoder invocation? -/
def is_encode : Event → Bool
  | Event.encode _ => true
  | _ => false

theorem probe_events_no_encode (pr : ProbeResult) (file : String) :
    ∀ e ∈ probe_events pr file, is_encode e = false := by
  intro e he
  unfold probe_events at he
  rcases List.mem_append.mp he with h | h
  · rw [List.mem_singleton.mp h]; rfl
  · split at h
    · rw [List.mem_singleton.mp h]; rfl
    · simp at h

theorem prompt_events_no_encode (key : String) (pa ps : Bool) :
    ∀ e ∈ prompt_events key pa ps, is_encode e = false := by
  intro e he
  unfold prompt_events at he
  rcases List.mem_append.mp he with h | h
  · split at h
    · rw [List.mem_singleton.mp h]; rfl
    · simp at h
  · split at h
    · rw [List.mem_singleton.mp h]; rfl
    · simp at h

theorem pass1_file_no_encode (env : Env) (reg : List (String × Track)) (file : String) :
    ∀ e ∈ (pass1_file env reg file).1, is_encode e = false := by
  intro e he
  unfold pass1_file at he
  split at he
  · simp at he
  · split at he
    · exact probe_events_no_encode (env.probe file) file e he
    · split at he
      · rcases List.mem_append.mp he with h | h
        · exact probe_events_no_encode (env.probe file) file e h
        · exact prompt_events_no_encode _ _ _ e h
      · rcases List.mem_append.mp he with h | h
        · exact probe_events_no_encode (env.probe file) file e h
        · exact prompt_events_no_encode _ _ _ e h

theorem pass1_no_encode (env : Env) :
    ∀ (fs : List String) (reg : List (String × Track)),
      ∀ e ∈ (pass1 env fs reg).1, is_encode e = false := by
  intro fs
  induction fs with
  | nil => intro reg e he; simp [pass1] at he
  | cons f fs ih =>
    intro reg e he
    unfold pass1 at he
    rcases hp : pass1_file env reg f with ⟨evs, r⟩
    rw [hp] at he
    cases r with
    | error u =>
      exact pass1_file_no_encode env reg f e (by rw [hp]; exact he)
    | ok reg1 =>
      rcases List.mem_append.mp he with h | h
      · exact pass1_file_no_encode env reg f e (by rw [hp]; exact h)
      · exact ih reg1 e h

theorem lookupReg_cons_isSome (p : String × Track) (reg : List (String × Track))
    (k : String) (h : (lookupReg reg k).isSome) :
    (lookupReg (p :: reg) k).isSome := by
  rcases p with ⟨k', t⟩
  unfold lookupReg
  split
  · rfl
  · exact h

theorem pass1_file_mono (env : Env) (reg : List (String × Track)) (f : String)
    (reg' : List (String × Track))
    (h : (pass1_file env reg f).2 = Except.ok reg') :
    ∀ k, (lookupReg reg k).isSome → (lookupReg reg' k).isSome := by
  unfold pass1_file at h
  split at h
  · have : reg = reg' := Except.ok.inj h
    exact this ▸ fun k hk => hk
  · split at h
    · exact Except.noConfusion h
    · split at h
      · exact Except.noConfusion h
      · have hr := Except.ok.inj h
        intro k hk
        rw [← hr]
        exact lookupReg_cons_isSome _ reg k hk

theorem pass1_mono (env : Env) :
    ∀ (fs : List String) (reg reg' : List (String × Track)),
      (pass1 env fs reg).2 = Except.ok reg' →
      ∀ k, (lookupReg reg k).isSome → (lookupReg reg' k).isSome := by
  intro fs
  induction fs with
  | nil =>
    intro reg reg' h k hk
    have : reg = reg' := Except.ok.inj h
    exact this ▸ hk
  | cons f fs ih =>
    intro reg reg' h k hk
    unfold pass1 at h
    rcases hp : pass1_file env reg f with ⟨evs, r⟩
    rw [hp] at h
    cases r with
    | error u => exact absurd h (by simp)
    | ok reg1 =>
      have h1 : (pass1_file env reg f).2 = Except.ok reg1 := by rw [hp]
      exact ih reg1 reg' h k (pass1_file_mono env reg f reg1 h1 k hk)

theorem pass1_file_key_resolved (env : Env) (reg : List (String × Track)) (f : String)
    (reg' : List (String × Track))
    (h : (pass1_file env reg f).2 = Except.ok reg') :
    (lookupReg reg' (get_key f)).isSome := by
  unfold pass1_file at h
  split at h
  · rename_i hkey
    have : reg = reg' := Except.ok.inj h
    exact this ▸ hkey
  · split at h
    · exact Except.noConfusion h
    · split at h
      · exact Except.noConfusion h
      · have hr := Except.ok.inj h
        rw [← hr]
        unfold lookupReg
        rw [if_pos rfl]
        rfl

theorem pass1_complete (env : Env) :
    ∀ (fs : List String) (reg reg' : List (String × Track)),
      (pass1 env fs reg).2 = Except.ok reg' →
      ∀ f ∈ fs, (lookupReg reg' (get_key f)).isSome := by
  intro fs
  induction fs with
  | nil => intro reg reg' _ f hf; simp at hf
  | cons f0 fs ih =>
    intro reg reg' h f hf
    unfold pass1 at h
    rcases hp : pass1_file env reg f0 with ⟨evs, r⟩
    rw [hp] at h
    cases r with
    | error u => exact absurd h (by simp)
    | ok reg1 =>
      have h1 : (pass1_file env reg f0).2 = Except.ok reg1 := by rw [hp]
      rcases List.mem_cons.mp hf with hx | hx
      · subst hx
        exact pass1_mono env fs reg1 reg' h (get_key f)
          (pass1_file_key_resolved env reg f reg1 h1)
      · exact ih reg1 reg' h f hx

theorem mem_insertSorted (x y : String) :
    ∀ l : List String, y ∈ insertSorted x l ↔ y = x ∨ y ∈ l := by
  intro l
  induction l with
  | nil => simp [insertSorted]
  | cons z zs ih =>
    unfold insertSorted
    split
    · simp
    · rw [List.mem_cons, ih, List.mem_cons]
      tauto

theorem mem_sortFiles (y : String) :
    ∀ l : List String, y ∈ sortFiles l ↔ y ∈ l := by
  intro l
  induction l with
  | nil => simp [sortFiles]
  | cons x xs ih =>
    have hstep : sortFiles (x :: xs) = insertSorted x (sortFiles xs) := rfl
    rw [hstep, mem_insertSorted, ih, List.mem_cons]

theorem list_get?_append {α : Type} :
    ∀ (l1 l2 : List α) (i : Nat), i < l1.length → (l1 ++ l2).get? i = l1.get? i := by
  intro l1
  induction l1 with
  | nil => intro l2 i h; simp at h
  | cons x xs ih =>
    intro l2 i h
    cases i with
    | zero => rfl
    | succ n =>
      simp only [List.cons_append, List.get?]
      exact ih l2 n (by simpa using h)

/-- C6: whenever the run's event trace contains an encoder invocation
(at any index `i`), Pass 1 has completed successfully over the whole
sorted file list, its registry resolves the series key of *every* input
file, the trace is exactly the Pass-1 events followed by the Pass-2
events, no Pass-1 event is an encoder invocation, and the encode sits
strictly after all Pass-1 events. -/
theorem C6_pass1_precedes_encodes (env : Env) (files : List String) (i : Nat)
    (args : List String)
    (henc : (runMain env files).1.get? i = some (Event.encode args)) :
    ∃ reg, (pass1 env (sortFiles files) []).2 = Except.ok reg ∧
      (∀ f ∈ files, (lookupReg reg (get_key f)).isSome) ∧
      (∀ e ∈ (pass1 env (sortFiles files) []).1, is_encode e = false) ∧
      (pass1 env (sortFiles files) []).1.length ≤ i ∧
      (runMain env files).1 =
        (pass1 env (sortFiles files) []).1 ++ (pass2 env reg (sortFiles files)).1 := by
  have hbody : (runMain env files).1 = (run_body env files).1 →
      ∃ reg, (pass1 env (sortFiles files) []).2 = Except.ok reg ∧
      (∀ f ∈ files, (lookupReg reg (get_key f)).isSome) ∧
      (∀ e ∈ (pass1 env (sortFiles files) []).1, is_encode e = false) ∧
      (pass1 env (sortFiles files) []).1.length ≤ i ∧
      (runMain env files).1 =
        (pass1 env (sortFiles files) []).1 ++ (pass2 env reg (sortFiles files)).1 := by
    intro hrm
    cases hr1 : (pass1 env (sortFiles files) []).2 with
    | error u =>
      exfalso
      have htr : (run_body env files).1 = (pass1 env (sortFiles files) []).1 ++ [] := by
        unfold run_body
        rw [hr1]
      rw [hrm, htr, List.append_nil] at henc
      have hmem : Event.encode args ∈ (pass1 env (sortFiles files) []).1 :=
        list_get?_mem henc
      exact Bool.noConfusion
        (pass1_no_encode env (sortFiles files) [] (Event.encode args) hmem)
    | ok reg =>
      have htr : (run_body env files).1 =
          (pass1 env (sortFiles files) []).1 ++ (pass2 env reg (sortFiles files)).1 := by
        unfold run_body
        rw [hr1]
      refine ⟨reg, rfl, ?_, ?_, ?_, by rw [hrm, htr]⟩
      · intro f hf
        exact pass1_complete env (sortFiles files) [] reg hr1 f
          ((mem_sortFiles f files).mpr hf)
      · exact pass1_no_encode env (sortFiles files) []
      · by_contra hlt
        push_neg at hlt
        rw [hrm, htr,
          list_get?_append (pass1 env (sortFiles files) []).1 _ i hlt] at henc
        have hmem : Event.encode args ∈ (pass1 env (sortFiles files) []).1 :=
          list_get?_mem henc
        exact Bool.noConfusion
          (pass1_no_encode env (sortFiles files) [] (Event.encode args) hmem)
  by_cases hd : env.dir_exists = true
  · exact hbody (by unfold runMain; rw [if_pos hd])
  · cases hm : env.mkdir_error with
    | some msg =>
      exfalso
      unfold runMain at henc
      rw [if_neg hd, hm] at henc
      cases i with
      | zero => exact Event.noConfusion (Option.some_inj.mp henc)
      | succ n => simp [List.get?] at henc
    | none => exact hbody (by unfold runMain; rw [if_neg hd, hm])

/-- The track selection the scenario series resolves to: one aac
stereo audio stream auto-selected, no subtitles. -/
def scenarioTrack : Track :=
  { audio_index := 0, subtitle_index := -1, audio_codec := "aac",
    audio_channels := PyVal.int 2, subtitle_codec := "none" }

/-- Environment of the C2 scenario: the directory exists, every probe
reports one aac stereo audio stream and no subtitles, and every encode
succeeds. -/
def scenarioEnv : Env :=
  { dir_exists := true, mkdir_error := none,
    probe := fun _ => { returncode := 0, parsed := some [sampleAac] },
    audio_choice := fun _ => 0, sub_choice := fun _ => 0,
    encode_rc := fun _ => 0, encode_launch_error := fun _ => none }

/-- Two input files of the same series (both key to `"T"`). -/
def scenarioFiles : List String := ["[G] T - 01 A.mkv", "[G] T - 02 B.mkv"]

/-- C2: in the two-file single-series scenario the run probes exactly
once, prompts never, and encodes both files to their `hardsubbed`
output paths with the null (no burn-in) filter graph — but each encoder
invocation carries the *re-encode* audio flags (with the `-b:a 192k`
bitrate flag and no `copy` token), not the stream-copy flags the claim
expects, because line 147 passes `get_audio_flags(audio_channels,
audio_codec, audio_index)` with the first two arguments swapped. -/
theorem C2_batch_scenario :
    get_key "[G] T - 01 A.mkv" = get_key "[G] T - 02 B.mkv" ∧
    runMain scenarioEnv scenarioFiles =
      ([Event.probe "[G] T - 01 A.mkv",
        Event.encode (encode_args "[G] T - 01 A.mkv" scenarioTrack),
        Event.encode (encode_args "[G] T - 02 B.mkv" scenarioTrack)],
       Outcome.normal) ∧
    encode_args "[G] T - 01 A.mkv" scenarioTrack =
      ["ffmpeg", "-hide_banner", "-loglevel", "warning", "-stats", "-i",
       "[G] T - 01 A.mkv"] ++ video_flags ++
      ["-c:a", "aac", "-b:a", "192k", "-ac", "2", "-map", "0:a:0"] ++
      ["-filter_complex", "[0:v]null[burned];" ++ scale_stage, "-map", "[v]"] ++
      ["hardsubbed/[G] T - 01 A.mp4"] ∧
    encode_args "[G] T - 02 B.mkv" scenarioTrack =
      ["ffmpeg", "-hide_banner", "-loglevel", "warning", "-stats", "-i",
       "[G] T - 02 B.mkv"] ++ video_flags ++
      ["-c:a", "aac", "-b:a", "192k", "-ac", "2", "-map", "0:a:0"] ++
      ["-filter_complex", "[0:v]null[burned];" ++ scale_stage, "-map", "[v]"] ++
      ["hardsubbed/[G] T - 02 B.mp4"] ∧
    "-b:a" ∈ encode_args "[G] T - 01 A.mkv" scenarioTrack ∧
    (encode_args "[G] T - 01 A.mkv" scenarioTrack).countP (fun s => s == "copy") = 0 := by
  refine ⟨rfl, ?_, rfl, rfl, by decide, by decide⟩
  decide

/-- Witness for C6 at the concrete scenario: the encode at trace index
1 is preceded by a completed Pass 1 resolving both files' key. -/
theorem C6_pass1_precedes_encodes_witness :
    ∃ reg, (pass1 scenarioEnv (sortFiles scenarioFiles) []).2 = Except.ok reg ∧
      (∀ f ∈ scenarioFiles, (lookupReg reg (get_key f)).isSome) ∧
      (∀ e ∈ (pass1 scenarioEnv (sortFiles scenarioFiles) []).1, is_encode e = false) ∧
      (pass1 scenarioEnv (sortFiles scenarioFiles) []).1.length ≤ 1 ∧
      (runMain scenarioEnv scenarioFiles).1 =
        (pass1 scenarioEnv (sortFiles scenarioFiles) []).1 ++
          (pass2 scenarioEnv reg (sortFiles scenarioFiles)).1 :=
  C6_pass1_precedes_encodes scenarioEnv scenarioFiles 1
    (encode_args "[G] T - 01 A.mkv" scenarioTrack) (by decide)

/-- Environment where creating the output directory fails. -/
def mkdirFailEnv : Env :=
  { dir_exists := false,
    mkdir_error := some "[Errno 13] Permission denied: \x27hardsubbed\x27",
    probe := fun _ => { returncode := 0, parsed := some [sampleAac] },
    audio_choice := fun _ => 0, sub_choice := fun _ => 0,
    encode_rc := fun _ => 0, encode_launch_error := fun _ => none }

/-- Environment where every probe exits nonzero with unparsable stdout. -/
def probeCrashEnv : Env :=
  { dir_exists := true, mkdir_error := none,
    probe := fun _ => { returncode := 1, parsed := none },
    audio_choice := fun _ => 0, sub_choice := fun _ => 0,
    encode_rc := fun _ => 0, encode_launch_error := fun _ => none }

/-- Counterexample to C8 as stated: on directory-creation failure the
program prints the error and stops before any probe or encode, but
`sys.exit()` (line 61) is called with no argument, so the exit status
is 0, not non-zero; moreover not every other run falls through to
normal termination: a probe whose output is unparsable crashes the run
with exit status 1. -/
theorem C8_exit_behavior_counterexample :
    runMain mkdirFailEnv scenarioFiles =
      ([Event.errPrint "[Errno 13] Permission denied: \x27hardsubbed\x27"],
       Outcome.sysExitZero) ∧
    exit_status (runMain mkdirFailEnv scenarioFiles).2 = 0 ∧
    (runMain probeCrashEnv scenarioFiles).2 = Outcome.crash ∧
    exit_status (runMain probeCrashEnv scenarioFiles).2 = 1 := by
  refine ⟨by decide, by decide, by decide, by decide⟩

theorem pass1_file_ok (env : Env) (reg : List (String × Track)) (f : String)
    (hcf : ∃ streams, (env.probe f).parsed = some streams ∧
      ((resolve_tracks (streams.filter fun s => s.codec_type == "audio")
          (streams.filter fun s => s.codec_type == "subtitle")
          (env.audio_choice (get_key f)) (env.sub_choice (get_key f))).2).isSome) :
    ∃ reg1, (pass1_file env reg f).2 = Except.ok reg1 := by
  obtain ⟨streams, hps, hsome⟩ := hcf
  obtain ⟨t, ht⟩ := Option.isSome_iff_exists.mp hsome
  unfold pass1_file
  split
  · exact ⟨reg, rfl⟩
  · simp only [hps]
    rcases hrt : resolve_tracks (streams.filter fun s => s.codec_type == "audio")
        (streams.filter fun s => s.codec_type == "subtitle")
        (env.audio_choice (get_key f)) (env.sub_choice (get_key f)) with ⟨⟨pa, ps⟩, o⟩
    rw [hrt] at ht
    have ho : o = some t := ht
    subst ho
    exact ⟨(get_key f, t) :: reg, rfl⟩

theorem pass1_ok (env : Env) :
    ∀ (fs : List String) (reg : List (String × Track)),
      (∀ f ∈ fs, ∃ streams, (env.probe f).parsed = some streams ∧
        ((resolve_tracks (streams.filter fun s => s.codec_type == "audio")
            (streams.filter fun s => s.codec_type == "subtitle")
            (env.audio_choice (get_key f)) (env.sub_choice (get_key f))).2).isSome) →
      ∃ reg', (pass1 env fs reg).2 = Except.ok reg' := by
  intro fs
  induction fs with
  | nil => intro reg _; exact ⟨reg, rfl⟩
  | cons f fs ih =>
    intro reg hcf
    obtain ⟨reg1, h1⟩ := pass1_file_ok env reg f (hcf f (List.mem_cons_self f fs))
    unfold pass1
    rcases hp : pass1_file env reg f with ⟨evs, r⟩
    rw [hp] at h1
    have hr : r = Except.ok reg1 := h1
    subst hr
    obtain ⟨reg', h'⟩ := ih reg1 (fun g hg => hcf g (List.mem_cons_of_mem f hg))
    exact ⟨reg', h'⟩

theorem pass2_file_ok (env : Env) (reg : List (String × Track)) (f : String)
    (h : (lookupReg reg (get_key f)).isSome) :
    (pass2_file env reg f).2 = Except.ok () := by
  obtain ⟨ti, hti⟩ := Option.isSome_iff_exists.mp h
  unfold pass2_file
  simp only [hti]
  split
  · rfl
  · rfl

theorem pass2_ok (env : Env) (reg : List (String × Track)) :
    ∀ fs : List String, (∀ f ∈ fs, (lookupReg reg (get_key f)).isSome) →
      (pass2 env reg fs).2 = Except.ok () := by
  intro fs
  induction fs with
  | nil => intro _; rfl
  | cons f fs ih =>
    intro hres
    unfold pass2
    rcases hp : pass2_file env reg f with ⟨evs, r⟩
    have h1 := pass2_file_ok env reg f (hres f (List.mem_cons_self f fs))
    rw [hp] at h1
    have hr : r = Except.ok () := h1
    subst hr
    exact ih (fun g hg => hres g (List.mem_cons_of_mem f hg))

/-- C8 amended: on directory-creation failure the program prints the
error and terminates immediately — with exit status 0 (`sys.exit()`
with no argument), not a non-zero status — performing no probe or
encode; and every run whose probes yield parsable stream data and whose
prompt selections are valid falls through to normal termination (exit
status 0) even when individual files failed (nonzero probe or encode
exit codes, or encoder launch failures). -/
theorem C8_exit_behavior_amended :
    (∀ (env : Env) (files : List String) (msg : String),
      env.dir_exists = false → env.mkdir_error = some msg →
      runMain env files = ([Event.errPrint msg], Outcome.sysExitZero) ∧
      exit_status (runMain env files).2 = 0) ∧
    (∀ (env : Env) (files : List String),
      (env.dir_exists = true ∨ env.mkdir_error = none) →
      (∀ f ∈ sortFiles files, ∃ streams,
        (env.probe f).parsed = some streams ∧
        ((resolve_tracks (streams.filter fun s => s.codec_type == "audio")
            (streams.filter fun s => s.codec_type == "subtitle")
            (env.audio_choice (get_key f)) (env.sub_choice (get_key f))).2).isSome) →
      (runMain env files).2 = Outcome.normal ∧
      exit_status (runMain env files).2 = 0) := by
  constructor
  · intro env files msg hd hm
    have h1 : runMain env files = ([Event.errPrint msg], Outcome.sysExitZero) := by
      unfold runMain
      rw [hd, hm]
      rw [if_neg (by decide : ¬(false = true))]
    exact ⟨h1, by rw [h1]; rfl⟩
  · intro env files hcond hcf
    obtain ⟨reg, hp1⟩ := pass1_ok env (sortFiles files) [] hcf
    have hcomplete : ∀ f ∈ sortFiles files, (lookupReg reg (get_key f)).isSome :=
      pass1_complete env (sortFiles files) [] reg hp1
    have hp2 := pass2_ok env reg (sortFiles files) hcomplete
    have hbody : (run_body env files).2 = Outcome.normal := by
      unfold run_body
      simp only [hp1, hp2]
    have hmain : (runMain env files).2 = Outcome.normal := by
      unfold runMain
      by_cases hd : env.dir_exists = true
      · rw [if_pos hd]
        exact hbody
      · have hm : env.mkdir_error = none := by
          rcases hcond with h | h
          · exact absurd h hd
          · exact h
        rw [if_neg hd, hm]
        exact hbody
    exact ⟨hmain, by rw [hmain]; rfl⟩

/-- Witness for the amended C8 at concrete environments: a failing
mkdir ends the run at once with exit status 0; a healthy scenario run
terminates normally with exit status 0. -/
theorem C8_exit_behavior_amended_witness :
    (runMain mkdirFailEnv scenarioFiles =
      ([Event.errPrint "[Errno 13] Permission denied: \x27hardsubbed\x27"],
       Outcome.sysExitZero) ∧
     exit_status (runMain mkdirFailEnv scenarioFiles).2 = 0) ∧
    ((runMain scenarioEnv scenarioFiles).2 = Outcome.normal ∧
     exit_status (runMain scenarioEnv scenarioFiles).2 = 0) :=
  ⟨C8_exit_behavior_amended.1 mkdirFailEnv scenarioFiles _ rfl rfl,
   C8_exit_behavior_amended.2 scenarioEnv scenarioFiles (Or.inl rfl)
     (fun _ _ => ⟨[sampleAac], rfl, rfl⟩)⟩

/-- C9: when the probe subprocess exits nonzero with unparsable stdout
on the first of two files, the failure is reported to diagnostic
output, but the run then terminates with an unhandled parse error
(exit status 1): the second file is never probed and no encode occurs,
so processing does not continue with the remaining files. -/
theorem C9_probe_failure_terminates_run :
    runMain probeCrashEnv scenarioFiles =
      ([Event.probe "[G] T - 01 A.mkv",
        Event.errPrint "probe failed with code: 1"], Outcome.crash) ∧
    exit_status (runMain probeCrashEnv scenarioFiles).2 = 1 ∧
    (runMain probeCrashEnv scenarioFiles).1.countP
      (fun e => e == Event.probe "[G] T - 02 B.mkv") = 0 ∧
    (runMain probeCrashEnv scenarioFiles).1.countP is_encode = 0 := by
  refine ⟨by decide, by decide, by decide, by decide⟩
